import Mathlib

/-!
Shallow embedding of the BitEye scanner core (src/src/app/page.tsx, the
full-featured component: `fetchData`, the merge pipeline `allCoins`,
`sortedCoins`, the alert effect around `playAlert`, and `getChangeClass`).

JavaScript numbers are modelled as rationals (`ℚ`); the sentinel
`-Infinity` used by the sort-key extraction is modelled as the bottom
element of `WithBot ℚ`; `null`-able numeric fields are `Option ℚ`.
`Array.prototype.sort` with a comparator is modelled as the stable sort
that places `a` before `b` whenever the comparator does not return a
positive value (`List.insertionSort`, which is the unique stable sort
for a total transitive relation). The merge's rank comparator returns
0 on ties and is consistent, so that model is exact; the `sortedCoins`
comparator never returns 0, so for rows with equal key values the
ECMAScript sort order is implementation-defined and only properties
independent of tie order are claimed about `sortedCoins`.
-/

/-- Rounding to 4 decimal places, modelling `Number(x.toFixed(4))`:
the nearest multiple of 1/10000, ties toward positive infinity
(ECMAScript `toFixed` picks the larger candidate on a tie). -/
def round4 (x : ℚ) : ℚ := (⌊x * 10000 + 1 / 2⌋ : ℚ) / 10000

/-- A raw market row as returned by the provider, mirroring the fields of
the `Coin` interface that are present before the derive step
(`sparkline_in_7d` is the optional price-sample series). -/
structure RawCoin where
  id : String
  symbol : String
  name : String
  current_price : ℚ
  market_cap : ℚ
  total_volume : ℚ
  price_change_percentage_1h_in_currency : Option ℚ
  price_change_percentage_24h_in_currency : Option ℚ
  price_change_percentage_7d_in_currency : Option ℚ
  sparkline_in_7d : Option (List ℚ)
  market_cap_rank : ℚ
deriving DecidableEq, Repr

/-- A fully populated row: the raw row plus the two locally derived
horizons `price_change_15m` and `price_change_4h` (the `Coin` interface
of the source). -/
structure Coin extends RawCoin where
  price_change_15m : Option ℚ
  price_change_4h : Option ℚ
deriving DecidableEq, Repr

/-- The sample `k` positions from the end of the series: models the
JavaScript access `prices[prices.length - k]`, which is `undefined`
(here `none`) when the index is out of range. -/
def sampleAt (prices : List ℚ) (k : Nat) : Option ℚ :=
  if h : 0 < k ∧ k ≤ prices.length then
    some (prices.get ⟨prices.length - k, by omega⟩)
  else none

/-- Models JavaScript truthiness of an optional number on the left of
`||`: `undefined` and `0` are falsy and yield `none`, any other number
is kept. -/
def jsTruthy (o : Option ℚ) : Option ℚ :=
  o.bind fun q => if q = 0 then none else some q

/-- `const price15mAgo = prices[prices.length - 15] || nowPrice` -/
def price15mAgo (prices : List ℚ) (nowPrice : ℚ) : ℚ :=
  (jsTruthy (sampleAt prices 15)).getD nowPrice

/-- `const price4hAgo = prices[prices.length - 34] || prices[prices.length - 30] || nowPrice` -/
def price4hAgo (prices : List ℚ) (nowPrice : ℚ) : ℚ :=
  ((jsTruthy (sampleAt prices 34)).or (jsTruthy (sampleAt prices 30))).getD nowPrice

/-- The 15-minute derived change as computed inside `fetchData`'s map:
`price15mAgo > 0 ? ((nowPrice - price15mAgo) / price15mAgo) * 100 : null`,
rounded via `toFixed(4)`. -/
def derive15m (prices : List ℚ) (nowPrice : ℚ) : Option ℚ :=
  let ref := price15mAgo prices nowPrice
  if 0 < ref then some (round4 ((nowPrice - ref) / ref * 100)) else none

/-- The 4-hour derived change as computed inside `fetchData`'s map. -/
def derive4h (prices : List ℚ) (nowPrice : ℚ) : Option ℚ :=
  let ref := price4hAgo prices nowPrice
  if 0 < ref then some (round4 ((nowPrice - ref) / ref * 100)) else none

/-- The body of the `.map` in `fetchData`: spread the raw row and attach
the two derived fields, reading the series as
`coin.sparkline_in_7d?.price || []`. -/
def enrich (c : RawCoin) : Coin :=
  let prices := c.sparkline_in_7d.getD []
  { toRawCoin := c
    price_change_15m := derive15m prices c.current_price
    price_change_4h := derive4h prices c.current_price }

/-- Rank comparison used by the merge: the comparator
`(a, b) => a.market_cap_rank - b.market_cap_rank` orders `a` before `b`
exactly when the difference is not positive. -/
def rawLe (a b : RawCoin) : Prop := a.market_cap_rank ≤ b.market_cap_rank

instance : DecidableRel rawLe :=
  fun a b => inferInstanceAs (Decidable (a.market_cap_rank ≤ b.market_cap_rank))

instance : IsTotal RawCoin rawLe := ⟨fun a b => le_total a.market_cap_rank b.market_cap_rank⟩

instance : IsTrans RawCoin rawLe := ⟨fun _ _ _ h1 h2 => le_trans h1 h2⟩

/-- The merge step of `fetchData` (local `allCoins`): concatenate the two
pages, sort by ascending `market_cap_rank` and attach the derived
horizons. There is no deduplication and no filtering. -/
def allCoins (p1 p2 : List RawCoin) : List Coin :=
  (List.insertionSort rawLe (p1 ++ p2)).map enrich

/-- The component state touched by a fetch cycle. -/
structure AppState where
  coins : List Coin
  loading : Bool
  error : String
  lastUpdate : Option Nat
deriving DecidableEq, Repr

/-- Outcome of awaiting the two concurrent page requests: both resolve
with payloads, or the `Promise.all` rejects (network error, timeout or
malformed payload). -/
inductive FetchOutcome where
  | ok (p1 p2 : List RawCoin)
  | fail
deriving DecidableEq, Repr

/-- One run of `fetchData`, as a state transformer: set `loading` and
clear `error`, then either install the merged snapshot with a fresh
timestamp, or (in the catch branch) set the error message, leaving
`coins` and `lastUpdate` untouched. -/
def fetchData (o : FetchOutcome) (tNow : Nat) (s : AppState) : AppState :=
  let s1 := { s with loading := true, error := "" }
  match o with
  | .ok p1 p2 =>
      { s1 with coins := allCoins p1 p2, lastUpdate := some tNow, loading := false }
  | .fail =>
      { s1 with error := "Failed to load data — retrying...", loading := false }

/-- The sortable column keys (`type SortKey`); `15m`, `1h`, `4h`, `24h`,
`7d` are written `m15`, `h1`, `h4`, `h24`, `d7`. -/
inductive SortKey where
  | rank | price | m15 | h1 | h4 | h24 | d7 | market_cap | volume
deriving DecidableEq, Repr

/-- `type SortOrder = 'asc' | 'desc'` -/
inductive SortOrder where
  | asc | desc
deriving DecidableEq, Repr

/-- The comparison value extracted by the `switch` in `sortedCoins`;
`-Infinity` (the `?? -Infinity` fallback on the nullable horizon fields)
is the bottom element of `WithBot ℚ`. -/
def keyVal (k : SortKey) (c : Coin) : WithBot ℚ :=
  match k with
  | .rank => (c.market_cap_rank : ℚ)
  | .price => (c.current_price : ℚ)
  | .m15 => match c.price_change_15m with | some v => (v : ℚ) | none => ⊥
  | .h1 => match c.price_change_percentage_1h_in_currency with | some v => (v : ℚ) | none => ⊥
  | .h4 => match c.price_change_4h with | some v => (v : ℚ) | none => ⊥
  | .h24 => match c.price_change_percentage_24h_in_currency with | some v => (v : ℚ) | none => ⊥
  | .d7 => match c.price_change_percentage_7d_in_currency with | some v => (v : ℚ) | none => ⊥
  | .market_cap => (c.market_cap : ℚ)
  | .volume => (c.total_volume : ℚ)

/-- The comparator of `sortedCoins`:
`sortOrder === 'asc' ? (aVal > bVal ? 1 : -1) : (aVal < bVal ? 1 : -1)`. -/
def cmpCoins (k : SortKey) (o : SortOrder) (a b : Coin) : Int :=
  let aVal := keyVal k a
  let bVal := keyVal k b
  match o with
  | .asc => if aVal > bVal then 1 else -1
  | .desc => if aVal < bVal then 1 else -1

/-- `a` may be placed before `b` by the sort: the comparator does not
ask for a swap. -/
def coinLe (k : SortKey) (o : SortOrder) (a b : Coin) : Prop :=
  cmpCoins k o a b ≤ 0

instance (k : SortKey) (o : SortOrder) : DecidableRel (coinLe k o) :=
  fun a b => inferInstanceAs (Decidable (cmpCoins k o a b ≤ 0))

/-- The memoised `sortedCoins`: `[...coins].sort(...)`. The comparator
never returns 0 (see `cmpCoins`), so ECMA-262 leaves the relative order
of rows with equal key values implementation-defined; this model
resolves such ties by input order. Only properties independent of tie
order — determined by rows with distinct key values, where the
comparator is consistent — are claimed about it below. -/
def sortedCoins (k : SortKey) (o : SortOrder) (coins : List Coin) : List Coin :=
  List.insertionSort (coinLe k o) coins

/-- The per-horizon user thresholds (`userThresholds`); sliders bound
each value to 1–50 but the model keeps them as arbitrary rationals. -/
structure Thresholds where
  t15m : ℚ
  t1h : ℚ
  t4h : ℚ
  t24h : ℚ
  t7d : ℚ
deriving DecidableEq, Repr

/-- `const defaultThresholds = { '15m': 3, '1h': 5, '4h': 10, '24h': 15, '7d': 40 }` -/
def defaultThresholds : Thresholds := ⟨3, 5, 10, 15, 40⟩

/-- The five horizon columns a threshold is configured for. -/
inductive TF where
  | tf15m | tf1h | tf4h | tf24h | tf7d
deriving DecidableEq, Repr

/-- `userThresholds[tf]` -/
def Thresholds.get (u : Thresholds) : TF → ℚ
  | .tf15m => u.t15m
  | .tf1h => u.t1h
  | .tf4h => u.t4h
  | .tf24h => u.t24h
  | .tf7d => u.t7d

/-- The aggregate alert predicate computed in the alert `useEffect`:
`coins.some(c => (c.f !== null && Math.abs(c.f) >= userThresholds[h]) || ...)`
over the three fast horizons 15m, 1h, 4h. -/
def bigMove (coins : List Coin) (u : Thresholds) : Bool :=
  coins.any fun c =>
    (match c.price_change_15m with
     | some v => decide (u.t15m ≤ |v|)
     | none => false) ||
    (match c.price_change_percentage_1h_in_currency with
     | some v => decide (u.t1h ≤ |v|)
     | none => false) ||
    (match c.price_change_4h with
     | some v => decide (u.t4h ≤ |v|)
     | none => false)

/-- Whether the audio side effect actually happens for a cycle:
`if (bigMove) playAlert()` where `playAlert` only plays when
`soundEnabled` is set. -/
def alertFires (coins : List Coin) (u : Thresholds) (soundEnabled : Bool) : Bool :=
  bigMove coins u && soundEnabled

/-- Cell classification `getChangeClass(val, tf)`: neutral grey for a
`null` value, bold flagged classes when `|val| >= userThresholds[tf]`,
otherwise the plain green/positive or red/negative class. -/
def getChangeClass (val : Option ℚ) (tf : TF) (u : Thresholds) : String :=
  match val with
  | none => "text-gray-400"
  | some v =>
      if u.get tf ≤ |v| then
        if 0 < v then "bg-green-100 text-green-800 font-bold animate-pulse"
        else "bg-red-100 text-red-800 font-bold animate-pulse"
      else
        if 0 < v then "text-green-600" else "text-red-600"

/-- A cell is rendered as flagged when its class is one of the two bold
alert classes. -/
def isFlaggedClass (s : String) : Bool :=
  s = "bg-green-100 text-green-800 font-bold animate-pulse" ||
  s = "bg-red-100 text-red-800 font-bold animate-pulse"

/-- The five horizon sort keys (the columns whose values can be
unavailable). -/
def isHorizonKey (k : SortKey) : Bool :=
  match k with
  | .m15 | .h1 | .h4 | .h24 | .d7 => true
  | _ => false

/-- The initial component state: `coins []`, `loading true`, `error ''`,
`lastUpdate null`. -/
def initState : AppState := ⟨[], true, "", none⟩

/-- A concrete provider row (rank 1, price 10, 1h change 5%). -/
def rawA : RawCoin := ⟨"a", "AAA", "Alpha", 10, 1000, 100, some 5, some 1, none, none, 1⟩

/-- A concrete provider row (rank 2, same price 10, no 1h change). -/
def rawB : RawCoin := ⟨"b", "BBB", "Beta", 10, 900, 90, none, some 2, none, none, 2⟩

/-- A concrete provider row whose rank is 7. -/
def rawG : RawCoin := ⟨"g", "GGG", "Gamma", 5, 10, 1, none, none, none, none, 7⟩

/-- `rawA` after the derive step. -/
def coinA : Coin := enrich rawA

/-- `rawB` after the derive step. -/
def coinB : Coin := enrich rawB

lemma coinLe_asc_iff (k : SortKey) (a b : Coin) :
    coinLe k .asc a b ↔ keyVal k a ≤ keyVal k b := by
  unfold coinLe cmpCoins
  by_cases h : keyVal k a > keyVal k b
  · simp [h, not_le.mpr h]
  · simp [h, not_lt.mp h]

lemma coinLe_desc_iff (k : SortKey) (a b : Coin) :
    coinLe k .desc a b ↔ keyVal k b ≤ keyVal k a := by
  unfold coinLe cmpCoins
  by_cases h : keyVal k a < keyVal k b
  · simp [h, not_le.mpr h]
  · simp [h, not_lt.mp h]

instance (k : SortKey) (o : SortOrder) : IsTotal Coin (coinLe k o) := by
  constructor
  intro a b
  cases o
  · rw [coinLe_asc_iff, coinLe_asc_iff]
    exact le_total _ _
  · rw [coinLe_desc_iff, coinLe_desc_iff]
    exact le_total _ _

instance (k : SortKey) (o : SortOrder) : IsTrans Coin (coinLe k o) := by
  constructor
  intro a b c hab hbc
  cases o
  · rw [coinLe_asc_iff] at *
    exact le_trans hab hbc
  · rw [coinLe_desc_iff] at *
    exact le_trans hbc hab

/-- C6: for every present change value v and configured threshold t, the
cell is classified flagged exactly when |v| ≥ t; a value exactly at the
threshold is flagged, and a value one unit below is not. -/
theorem flagged_iff_abs_ge_threshold (u : Thresholds) (tf : TF) :
    (∀ v : ℚ, isFlaggedClass (getChangeClass (some v) tf u) = true ↔ u.get tf ≤ |v|) ∧
    isFlaggedClass (getChangeClass (some (u.get tf)) tf u) = true ∧
    (1 ≤ u.get tf →
      isFlaggedClass (getChangeClass (some (u.get tf - 1)) tf u) = false) := by
  have hmain : ∀ v : ℚ,
      isFlaggedClass (getChangeClass (some v) tf u) = true ↔ u.get tf ≤ |v| := by
    intro v
    simp only [getChangeClass]
    by_cases h : u.get tf ≤ |v|
    · rw [if_pos h]
      by_cases hv : 0 < v
      · rw [if_pos hv]; simp [isFlaggedClass, h]
      · rw [if_neg hv]; simp [isFlaggedClass, h]
    · rw [if_neg h]
      by_cases hv : 0 < v
      · rw [if_pos hv]; simp [isFlaggedClass, h]
      · rw [if_neg hv]; simp [isFlaggedClass, h]
  refine ⟨hmain, (hmain _).mpr (le_abs_self _), fun ht => ?_⟩
  have hlt : ¬ u.get tf ≤ |u.get tf - 1| := by
    rw [abs_of_nonneg (by linarith)]
    linarith
  exact Bool.eq_false_iff.mpr fun htrue => hlt ((hmain _).mp htrue)

/-- C6 witness: with the default 24h threshold 15, a 15.0000 change is
flagged and a 14.0000 change is not. -/
theorem flagged_iff_abs_ge_threshold_witness :
    (1 : ℚ) ≤ defaultThresholds.get TF.tf24h ∧
    isFlaggedClass
      (getChangeClass (some (defaultThresholds.get TF.tf24h)) TF.tf24h defaultThresholds) = true ∧
    isFlaggedClass
      (getChangeClass (some (defaultThresholds.get TF.tf24h - 1)) TF.tf24h defaultThresholds) = false :=
  ⟨by norm_num [defaultThresholds, Thresholds.get],
    (flagged_iff_abs_ge_threshold defaultThresholds TF.tf24h).2.1,
    (flagged_iff_abs_ge_threshold defaultThresholds TF.tf24h).2.2
      (by norm_num [defaultThresholds, Thresholds.get])⟩

/-- C10: for thresholds ≥ 1 a present change of exactly 0 gets the
negative-normal class (the same class as a small negative value), never
the neutral grey class, which is reserved for null values. -/
theorem zero_change_negative_normal (tf : TF) (u : Thresholds) (h : 1 ≤ u.get tf) :
    getChangeClass (some 0) tf u = "text-red-600" ∧
    getChangeClass (some 0) tf u = getChangeClass (some (-(1 : ℚ) / 2)) tf u ∧
    getChangeClass none tf u = "text-gray-400" ∧
    (∀ v : ℚ, getChangeClass (some v) tf u ≠ "text-gray-400") := by
  have h0 : getChangeClass (some 0) tf u = "text-red-600" := by
    simp only [getChangeClass]
    rw [if_neg (by rw [abs_zero]; linarith), if_neg (lt_irrefl 0)]
  have hneg : getChangeClass (some (-(1 : ℚ) / 2)) tf u = "text-red-600" := by
    simp only [getChangeClass]
    rw [if_neg (by rw [abs_of_nonpos (by norm_num)]; linarith),
      if_neg (by norm_num)]
  refine ⟨h0, h0.trans hneg.symm, rfl, fun v => ?_⟩
  simp only [getChangeClass]
  split_ifs <;> simp

/-- C10 witness: with the default 15m threshold 3, a zero change renders
as a normal negative cell, like −0.5, and only null is neutral. -/
theorem zero_change_negative_normal_witness :
    getChangeClass (some 0) TF.tf15m defaultThresholds = "text-red-600" ∧
    getChangeClass (some 0) TF.tf15m defaultThresholds =
      getChangeClass (some (-(1 : ℚ) / 2)) TF.tf15m defaultThresholds ∧
    getChangeClass none TF.tf15m defaultThresholds = "text-gray-400" ∧
    (∀ v : ℚ, getChangeClass (some v) TF.tf15m defaultThresholds ≠ "text-gray-400") :=
  zero_change_negative_normal TF.tf15m defaultThresholds
    (by norm_num [defaultThresholds, Thresholds.get])

/-- C4: a failed cycle leaves the snapshot (and its timestamp) untouched
and sets a non-empty error message; a subsequent successful cycle clears
the error and installs the freshly merged snapshot. -/
theorem fetch_failure_retention (s : AppState) (t1 t2 : Nat) (p1 p2 : List RawCoin) :
    (fetchData .fail t1 s).coins = s.coins ∧
    (fetchData .fail t1 s).lastUpdate = s.lastUpdate ∧
    (fetchData .fail t1 s).error ≠ "" ∧
    (fetchData (.ok p1 p2) t2 (fetchData .fail t1 s)).error = "" ∧
    (fetchData (.ok p1 p2) t2 (fetchData .fail t1 s)).coins = allCoins p1 p2 := by
  refine ⟨rfl, rfl, ?_, rfl, rfl⟩
  show ("Failed to load data — retrying..." : String) ≠ ""
  decide

/-- C4 witness: a concrete failing cycle over the initial state followed
by a successful cycle fetching one page row. -/
theorem fetch_failure_retention_witness :
    (fetchData .fail 1 initState).coins = initState.coins ∧
    (fetchData .fail 1 initState).lastUpdate = initState.lastUpdate ∧
    (fetchData .fail 1 initState).error ≠ "" ∧
    (fetchData (.ok [rawA] [rawB]) 2 (fetchData .fail 1 initState)).error = "" ∧
    (fetchData (.ok [rawA] [rawB]) 2 (fetchData .fail 1 initState)).coins =
      allCoins [rawA] [rawB] :=
  fetch_failure_retention initState 1 2 [rawA] [rawB]

/-- C5: the aggregate alert is true exactly when some asset has a
present fast-horizon change (15m, 1h or 4h) whose absolute value meets
its threshold; disabling sound suppresses the audio effect without
touching the aggregate computation, and a crossing value still gets the
flagged cell class. -/
theorem alert_aggregation_correct (coins : List Coin) (u : Thresholds) :
    (bigMove coins u = true ↔ ∃ c ∈ coins,
      (∃ v, c.price_change_15m = some v ∧ u.t15m ≤ |v|) ∨
      (∃ v, c.price_change_percentage_1h_in_currency = some v ∧ u.t1h ≤ |v|) ∨
      (∃ v, c.price_change_4h = some v ∧ u.t4h ≤ |v|)) ∧
    alertFires coins u false = false ∧
    alertFires coins u true = bigMove coins u ∧
    (∀ v : ℚ, u.t15m ≤ |v| → isFlaggedClass (getChangeClass (some v) TF.tf15m u) = true) ∧
    (∀ v : ℚ, u.t1h ≤ |v| → isFlaggedClass (getChangeClass (some v) TF.tf1h u) = true) ∧
    (∀ v : ℚ, u.t4h ≤ |v| → isFlaggedClass (getChangeClass (some v) TF.tf4h u) = true) := by
  have hflag : ∀ (v t : ℚ), t ≤ |v| →
      isFlaggedClass
        (if t ≤ |v| then
          if 0 < v then "bg-green-100 text-green-800 font-bold animate-pulse"
          else "bg-red-100 text-red-800 font-bold animate-pulse"
        else if 0 < v then "text-green-600" else "text-red-600") = true := by
    intro v t ht
    rw [if_pos ht]
    by_cases hv : 0 < v
    · rw [if_pos hv]; decide
    · rw [if_neg hv]; decide
  refine ⟨?_, by simp [alertFires], by simp [alertFires], ?_, ?_, ?_⟩
  · unfold bigMove
    rw [List.any_eq_true]
    constructor
    · rintro ⟨c, hc, hb⟩
      refine ⟨c, hc, ?_⟩
      rcases h15 : c.price_change_15m with _ | v15 <;>
        rcases h1 : c.price_change_percentage_1h_in_currency with _ | v1 <;>
        rcases h4 : c.price_change_4h with _ | v4 <;>
        simp only [h15, h1, h4] at hb <;> simp_all <;> tauto
    · rintro ⟨c, hc, hb⟩
      refine ⟨c, hc, ?_⟩
      rcases h15 : c.price_change_15m with _ | v15 <;>
        rcases h1 : c.price_change_percentage_1h_in_currency with _ | v1 <;>
        rcases h4 : c.price_change_4h with _ | v4 <;>
        simp_all <;> tauto
  · intro v hv
    simpa only [getChangeClass] using hflag v u.t15m hv
  · intro v hv
    simpa only [getChangeClass] using hflag v u.t1h hv
  · intro v hv
    simpa only [getChangeClass] using hflag v u.t4h hv

/-- C5 witness: one asset whose 1h change of 5% meets the default 1h
threshold makes the aggregate alert true; with sound disabled the
effect is suppressed while the cell class stays flagged. -/
theorem alert_aggregation_correct_witness :
    bigMove [coinA] defaultThresholds = true ∧
    alertFires [coinA] defaultThresholds false = false ∧
    isFlaggedClass (getChangeClass (some 5) TF.tf1h defaultThresholds) = true :=
  ⟨(alert_aggregation_correct [coinA] defaultThresholds).1.mpr
      ⟨coinA, by simp, Or.inr (Or.inl ⟨5, rfl, by norm_num [defaultThresholds]⟩)⟩,
    (alert_aggregation_correct [coinA] defaultThresholds).2.1,
    (alert_aggregation_correct [coinA] defaultThresholds).2.2.2.2.1 5
      (by norm_num [defaultThresholds])⟩

lemma sampleAt_of_le (prices : List ℚ) (k : Nat) (hk : 0 < k) (h : k ≤ prices.length) :
    sampleAt prices k = some (prices.get ⟨prices.length - k, by omega⟩) := by
  unfold sampleAt
  rw [dif_pos ⟨hk, h⟩]

lemma sampleAt_of_short (prices : List ℚ) (k : Nat) (h : prices.length < k) :
    sampleAt prices k = none := by
  unfold sampleAt
  rw [dif_neg]
  omega

/-- C1 counterexample: on an empty series the claim requires
"unavailable", and on a too-short series it requires the change against
the oldest sample p0 = 50 (that would be 100%); the code instead falls
back to the current price and reports a change of 0 in both cases. -/
theorem derive_momentum_fallback_cex :
    derive15m [] 100 = some 0 ∧ derive4h [] 100 = some 0 ∧
    derive15m [50] 100 = some 0 ∧ derive15m [50] 100 ≠ some 100 ∧
    some (0 : ℚ) ≠ (none : Option ℚ) := by
  have e1 : derive15m [] 100 = some 0 := by
    unfold derive15m price15mAgo
    rw [sampleAt_of_short [] 15 (by simp)]
    show (if (0 : ℚ) < 100 then some (round4 ((100 - 100) / 100 * 100)) else none) = some 0
    rw [if_pos (by norm_num)]
    norm_num [round4]
  have e2 : derive4h [] 100 = some 0 := by
    unfold derive4h price4hAgo
    rw [sampleAt_of_short [] 34 (by simp), sampleAt_of_short [] 30 (by simp)]
    show (if (0 : ℚ) < 100 then some (round4 ((100 - 100) / 100 * 100)) else none) = some 0
    rw [if_pos (by norm_num)]
    norm_num [round4]
  have e3 : derive15m [50] 100 = some 0 := by
    unfold derive15m price15mAgo
    rw [sampleAt_of_short [50] 15 (by simp)]
    show (if (0 : ℚ) < 100 then some (round4 ((100 - 100) / 100 * 100)) else none) = some 0
    rw [if_pos (by norm_num)]
    norm_num [round4]
  refine ⟨e1, e2, e3, ?_, by simp⟩
  rw [e3]
  simp

/-- C1 amended: the derived change equals
(current − s) / s × 100 rounded to 4 decimals where s is the sample at
index n−15 (15m) resp. n−34 (4h) when that sample exists and is
positive; when the indexed sample is missing the current price is the
reference, so a too-short or empty series yields a change of 0 (not the
oldest sample, not "unavailable") whenever the current price is
positive; the result is "unavailable" exactly when the effective
reference after fallback is not positive — e.g. an empty series with a
non-positive current price. -/
theorem derive_momentum_characterization :
    (∀ (prices : List ℚ) (nowPrice : ℚ) (h : 15 ≤ prices.length)
      (hp : 0 < prices.get ⟨prices.length - 15, by omega⟩),
      derive15m prices nowPrice =
        some (round4 ((nowPrice - prices.get ⟨prices.length - 15, by omega⟩) /
          prices.get ⟨prices.length - 15, by omega⟩ * 100))) ∧
    (∀ (prices : List ℚ) (nowPrice : ℚ) (h : 34 ≤ prices.length)
      (hp : 0 < prices.get ⟨prices.length - 34, by omega⟩),
      derive4h prices nowPrice =
        some (round4 ((nowPrice - prices.get ⟨prices.length - 34, by omega⟩) /
          prices.get ⟨prices.length - 34, by omega⟩ * 100))) ∧
    (∀ (prices : List ℚ) (nowPrice : ℚ), prices.length < 15 → 0 < nowPrice →
      derive15m prices nowPrice = some 0) ∧
    (∀ nowPrice : ℚ, nowPrice ≤ 0 →
      derive15m [] nowPrice = none ∧ derive4h [] nowPrice = none) := by
  have hzero : ∀ nowPrice : ℚ, 0 < nowPrice →
      some (round4 ((nowPrice - nowPrice) / nowPrice * 100)) = some (0 : ℚ) := by
    intro nowPrice h
    rw [sub_self, zero_div, zero_mul]
    norm_num [round4]
  refine ⟨?_, ?_, ?_, ?_⟩
  · intro prices nowPrice h hp
    unfold derive15m price15mAgo
    rw [sampleAt_of_le prices 15 (by omega) h]
    rw [show jsTruthy (some (prices.get ⟨prices.length - 15, by omega⟩)) =
        if prices.get ⟨prices.length - 15, by omega⟩ = 0 then none
        else some (prices.get ⟨prices.length - 15, by omega⟩) from rfl]
    rw [if_neg hp.ne', Option.getD_some, if_pos hp]
  · intro prices nowPrice h hp
    unfold derive4h price4hAgo
    rw [sampleAt_of_le prices 34 (by omega) h]
    rw [show jsTruthy (some (prices.get ⟨prices.length - 34, by omega⟩)) =
        if prices.get ⟨prices.length - 34, by omega⟩ = 0 then none
        else some (prices.get ⟨prices.length - 34, by omega⟩) from rfl]
    rw [if_neg hp.ne', Option.or_some, Option.getD_some, if_pos hp]
  · intro prices nowPrice h hn
    unfold derive15m price15mAgo
    rw [sampleAt_of_short prices 15 h]
    show (if 0 < nowPrice then _ else _) = _
    rw [if_pos hn]
    exact hzero nowPrice hn
  · intro nowPrice h
    constructor
    · unfold derive15m price15mAgo
      rw [sampleAt_of_short [] 15 (by simp)]
      show (if 0 < nowPrice then _ else _) = _
      rw [if_neg (not_lt.mpr h)]
    · unfold derive4h price4hAgo
      rw [sampleAt_of_short [] 34 (by simp), sampleAt_of_short [] 30 (by simp)]
      show (if 0 < nowPrice then _ else _) = _
      rw [if_neg (not_lt.mpr h)]

/-- C1 witness: a 15-sample series of constant price 50 with current
price 100 yields a +100% 15m change; a 1-sample series yields 0; an
empty series with current price 0 yields "unavailable". -/
theorem derive_momentum_characterization_witness :
    derive15m (List.replicate 15 (50 : ℚ)) 100 = some (round4 ((100 - 50) / 50 * 100)) ∧
    derive15m [(50 : ℚ)] 100 = some 0 ∧
    derive15m [] 0 = none ∧ derive4h [] 0 = none := by
  have h1 := derive_momentum_characterization.1 (List.replicate 15 (50 : ℚ)) 100
    (by simp) (by simp)
  have h3 := derive_momentum_characterization.2.2.1 [(50 : ℚ)] 100 (by simp) (by norm_num)
  have h4 := derive_momentum_characterization.2.2.2 0 le_rfl
  refine ⟨?_, h3, h4.1, h4.2⟩
  simpa using h1

/-- C3 counterexample: feeding the same row on both pages, the merge
keeps both occurrences — there is no deduplication by id (the claim
requires the second occurrence to be dropped, leaving one row). -/
theorem merge_keeps_duplicate_ids_cex :
    (allCoins [rawA] [rawA]).length = 2 ∧
    (allCoins [rawA] [rawA]).map (fun c => c.id) = ["a", "a"] := by
  refine ⟨rfl, rfl⟩

/-- C3 amended: the merge concatenates the two pages and orders the
combined rows by ascending rank, attaching the derived horizons; it
performs no deduplication by id and no exclusion of rows (every row of
both pages appears in the result; rank is always present on the typed
row, so no missing-rank filtering exists). -/
theorem merge_concat_sort_characterization (p1 p2 : List RawCoin) :
    (allCoins p1 p2).length = p1.length + p2.length ∧
    (allCoins p1 p2).Pairwise (fun a b => a.market_cap_rank ≤ b.market_cap_rank) ∧
    (allCoins p1 p2).Perm ((p1 ++ p2).map enrich) := by
  refine ⟨?_, ?_, ?_⟩
  · rw [allCoins, List.length_map, (List.perm_insertionSort rawLe (p1 ++ p2)).length_eq,
      List.length_append]
  · exact List.pairwise_map.mpr
      ((List.sorted_insertionSort rawLe (p1 ++ p2)).imp fun hab => hab)
  · exact (List.perm_insertionSort rawLe (p1 ++ p2)).map enrich

/-- C3 witness: merging two concrete one-row pages yields both rows in
ascending rank order. -/
theorem merge_concat_sort_characterization_witness :
    (allCoins [rawB] [rawA]).length = 2 ∧
    (allCoins [rawB] [rawA]).Pairwise (fun a b => a.market_cap_rank ≤ b.market_cap_rank) ∧
    (allCoins [rawB] [rawA]).Perm (([rawB] ++ [rawA]).map enrich) :=
  merge_concat_sort_characterization [rawB] [rawA]

/-- C7: under a horizon sort key an unavailable value compares as
negative infinity regardless of direction: descending, an unavailable
row never precedes a row with a value; ascending, a row with a value
never precedes an unavailable row. -/
theorem unavailable_sorts_as_bottom (k : SortKey) (coins : List Coin)
    (hk : isHorizonKey k = true) :
    (sortedCoins k .desc coins).Pairwise
      (fun a b => keyVal k b ≠ ⊥ → keyVal k a ≠ ⊥) ∧
    (sortedCoins k .asc coins).Pairwise
      (fun a b => keyVal k a ≠ ⊥ → keyVal k b ≠ ⊥) := by
  constructor
  · refine (List.sorted_insertionSort (coinLe k .desc) coins).imp ?_
    intro a b hab hb haeq
    apply hb
    have hle := (coinLe_desc_iff k a b).mp hab
    rw [haeq] at hle
    exact le_bot_iff.mp hle
  · refine (List.sorted_insertionSort (coinLe k .asc) coins).imp ?_
    intro a b hab ha hbeq
    apply ha
    have hle := (coinLe_asc_iff k a b).mp hab
    rw [hbeq] at hle
    exact le_bot_iff.mp hle

/-- C7 witness: sorting one available and one unavailable 1h value in
both directions. -/
theorem unavailable_sorts_as_bottom_witness :
    (sortedCoins .h1 .desc [coinA, coinB]).Pairwise
      (fun a b => keyVal .h1 b ≠ ⊥ → keyVal .h1 a ≠ ⊥) ∧
    (sortedCoins .h1 .asc [coinA, coinB]).Pairwise
      (fun a b => keyVal .h1 a ≠ ⊥ → keyVal .h1 b ≠ ⊥) :=
  unavailable_sorts_as_bottom .h1 [coinA, coinB] rfl

/-- C2 counterexample: on two concrete rows with equal price and ranks
1 and 2, the `sortedCoins` comparator returns −1 for both argument
orders, in both directions, and never consults rank: the strict
deterministic ascending-rank tie-break the claim asserts does not
exist in the code. A comparator answering −1 both ways on a tie is not
a consistent comparison function, so ECMA-262 leaves the relative
order of tied rows implementation-defined (V8's TimSort in fact
reverses tied runs), and neither the tie-break nor identical sequences
across repeated sorts is guaranteed. -/
theorem sort_tiebreak_missing_cex :
    keyVal .price coinA = keyVal .price coinB ∧
    coinA.market_cap_rank ≠ coinB.market_cap_rank ∧
    cmpCoins .price .asc coinA coinB = -1 ∧
    cmpCoins .price .asc coinB coinA = -1 ∧
    cmpCoins .price .desc coinA coinB = -1 ∧
    cmpCoins .price .desc coinB coinA = -1 := by decide

/-- C2 amended: for every sort key and direction the comparator never
returns 0, and on any two rows whose values under the active key are
equal it returns −1 for both argument orders — it contains no rank
comparison and is not a consistent comparison function in the sense of
ECMA-262, so the code guarantees neither an ascending-rank tie-break
nor identical sequences across repeated sorts: the order of tied rows
is implementation-defined. -/
theorem comparator_no_tiebreak (k : SortKey) (o : SortOrder) (a b : Coin)
    (h : keyVal k a = keyVal k b) :
    cmpCoins k o a b = -1 ∧ cmpCoins k o b a = -1 ∧
    (∀ c d : Coin, cmpCoins k o c d = 1 ∨ cmpCoins k o c d = -1) := by
  refine ⟨?_, ?_, fun c d => ?_⟩
  · cases o
    · simp only [cmpCoins]
      rw [if_neg (by rw [h]; exact lt_irrefl _)]
    · simp only [cmpCoins]
      rw [if_neg (by rw [h]; exact lt_irrefl _)]
  · cases o
    · simp only [cmpCoins]
      rw [if_neg (by rw [← h]; exact lt_irrefl _)]
    · simp only [cmpCoins]
      rw [if_neg (by rw [← h]; exact lt_irrefl _)]
  · cases o
    · simp only [cmpCoins]
      by_cases hc : keyVal k c > keyVal k d
      · rw [if_pos hc]; exact Or.inl rfl
      · rw [if_neg hc]; exact Or.inr rfl
    · simp only [cmpCoins]
      by_cases hc : keyVal k c < keyVal k d
      · rw [if_pos hc]; exact Or.inl rfl
      · rw [if_neg hc]; exact Or.inr rfl

/-- C2 witness: the tied concrete pair (equal price, ranks 1 and 2)
discharging the equal-key hypothesis. -/
theorem comparator_no_tiebreak_witness :
    keyVal .price coinA = keyVal .price coinB ∧
    cmpCoins .price .desc coinA coinB = -1 ∧
    cmpCoins .price .desc coinB coinA = -1 :=
  ⟨by decide,
    (comparator_no_tiebreak .price .desc coinA coinB (by decide)).1,
    (comparator_no_tiebreak .price .desc coinA coinB (by decide)).2.1⟩

/-- C8: when the ranks across the two pages are pairwise distinct,
merging the pages in either order yields the same snapshot. -/
theorem merge_page_order_irrelevant (p1 p2 : List RawCoin)
    (h : ((p1 ++ p2).map (fun c => c.market_cap_rank)).Nodup) :
    allCoins p1 p2 = allCoins p2 p1 := by
  have hperm : (List.insertionSort rawLe (p1 ++ p2)).Perm
      (List.insertionSort rawLe (p2 ++ p1)) :=
    (List.perm_insertionSort rawLe (p1 ++ p2)).trans
      (List.perm_append_comm.trans (List.perm_insertionSort rawLe (p2 ++ p1)).symm)
  have hstrict : ∀ l : List RawCoin, l.Pairwise rawLe →
      (l.map (fun c => c.market_cap_rank)).Nodup →
      l.Pairwise (fun a b => a.market_cap_rank < b.market_cap_rank) := by
    intro l hs hn
    have hne := List.pairwise_map.mp hn
    exact (hs.and hne).imp fun hab => lt_of_le_of_ne hab.1 hab.2
  have hn1 : ((List.insertionSort rawLe (p1 ++ p2)).map
      (fun c => c.market_cap_rank)).Nodup :=
    (((List.perm_insertionSort rawLe (p1 ++ p2)).map
      (fun c : RawCoin => c.market_cap_rank)).nodup_iff).mpr h
  have h2 : ((p2 ++ p1).map (fun c => c.market_cap_rank)).Nodup :=
    ((List.perm_append_comm.map (fun c : RawCoin => c.market_cap_rank)).nodup_iff).mp h
  have hn2 : ((List.insertionSort rawLe (p2 ++ p1)).map
      (fun c => c.market_cap_rank)).Nodup :=
    (((List.perm_insertionSort rawLe (p2 ++ p1)).map
      (fun c : RawCoin => c.market_cap_rank)).nodup_iff).mpr h2
  haveI : IsAntisymm RawCoin (fun a b => a.market_cap_rank < b.market_cap_rank) :=
    ⟨fun a b h1 h2 => absurd (h1.trans h2) (lt_irrefl _)⟩
  unfold allCoins
  exact congrArg (List.map enrich)
    (List.eq_of_perm_of_sorted hperm
      (hstrict _ (List.sorted_insertionSort rawLe (p1 ++ p2)) hn1)
      (hstrict _ (List.sorted_insertionSort rawLe (p2 ++ p1)) hn2))

/-- C8 witness: two concrete one-row pages with distinct ranks merge to
the same snapshot in either order. -/
theorem merge_page_order_irrelevant_witness :
    (([rawA] ++ [rawB]).map (fun c => c.market_cap_rank)).Nodup ∧
    allCoins [rawA] [rawB] = allCoins [rawB] [rawA] :=
  ⟨by decide, merge_page_order_irrelevant [rawA] [rawB] (by decide)⟩

/-- C9 counterexample: a successful cycle whose pages carry a single row
of rank 7 produces a snapshot whose rank sequence is [7], not the
contiguous 1..N (here N = 1, so [1]) the claim promises: the code never
enforces the invariant, it inherits whatever ranks the provider sent. -/
theorem snapshot_rank_invariant_cex :
    (fetchData (.ok [rawG] []) 0 initState).coins.map (fun c => c.market_cap_rank) =
      [(7 : ℚ)] ∧
    [(7 : ℚ)] ≠ (List.range' 1 1).map (fun n : ℕ => (n : ℚ)) := by
  refine ⟨rfl, ?_⟩
  decide

/-- C9 amended: the snapshot's rank sequence is exactly the ascending
sort of the ranks the two pages supplied; in particular, whenever the
combined pages carry precisely the ranks 1..N, the snapshot's ranks are
1..N in order — uniqueness and contiguity hold iff the provider
supplies them, the merge itself does not enforce them. -/
theorem snapshot_ranks_sorted_of_provider (p1 p2 : List RawCoin) (N : Nat)
    (h : ((p1 ++ p2).map (fun c => c.market_cap_rank)).Perm
      ((List.range' 1 N).map (fun n : ℕ => (n : ℚ)))) :
    (allCoins p1 p2).map (fun c => c.market_cap_rank) =
      (List.range' 1 N).map (fun n : ℕ => (n : ℚ)) := by
  have hmm : (allCoins p1 p2).map (fun c => c.market_cap_rank) =
      (List.insertionSort rawLe (p1 ++ p2)).map (fun c => c.market_cap_rank) := by
    rw [allCoins, List.map_map]
    rfl
  rw [hmm]
  have hsorted1 : ((List.insertionSort rawLe (p1 ++ p2)).map
      (fun c => c.market_cap_rank)).Pairwise (· ≤ ·) :=
    List.pairwise_map.mpr
      ((List.sorted_insertionSort rawLe (p1 ++ p2)).imp fun hab => hab)
  have hsorted2 : ((List.range' 1 N).map (fun n : ℕ => (n : ℚ))).Pairwise (· ≤ ·) := by
    rw [List.pairwise_map]
    refine List.Pairwise.imp ?_ (List.pairwise_lt_range' 1 N)
    intro a b hlt
    exact_mod_cast hlt.le
  have hperm : ((List.insertionSort rawLe (p1 ++ p2)).map
      (fun c => c.market_cap_rank)).Perm
      ((List.range' 1 N).map (fun n : ℕ => (n : ℚ))) :=
    ((List.perm_insertionSort rawLe (p1 ++ p2)).map
      (fun c : RawCoin => c.market_cap_rank)).trans h
  exact List.eq_of_perm_of_sorted hperm hsorted1 hsorted2

/-- C9 witness: pages carrying ranks 2 and 1 produce the snapshot rank
sequence [1, 2]. -/
theorem snapshot_ranks_sorted_of_provider_witness :
    (([rawB] ++ [rawA]).map (fun c => c.market_cap_rank)).Perm
      ((List.range' 1 2).map (fun n : ℕ => (n : ℚ))) ∧
    (allCoins [rawB] [rawA]).map (fun c => c.market_cap_rank) =
      (List.range' 1 2).map (fun n : ℕ => (n : ℚ)) :=
  ⟨by decide, snapshot_ranks_sorted_of_provider [rawB] [rawA] 2 (by decide)⟩
